import Mathlib

/-!
Verification of the POS-SYSTEM data/integration core against its design
specification.  The Python source (model.py, uipos.py) is shallowly embedded:

* Python scalar values (the JSON scalars that appear in product dictionaries,
  cache files and payment-terminal responses) are modelled by `Field`;
  Python dictionaries (`dict[str, Any]`) by association lists `PyDict` with
  Python insertion-order semantics.  `float` values are modelled as exact
  rationals; `Field.pyStr` models Python `str()` (for non-integral rationals
  it uses fraction notation, a divergence from the binary-float repr that no
  theorem below depends on).
* External effects (the MySQL server, the cache file on disk, the JSON
  parser of the standard library, the wall clock, the random generator)
  enter as explicit inputs: oracle functions or pre-parsed outcomes.
* A raised Python exception is an `Except.error` value; statements executed
  inside a DB transaction act on a working copy of an explicit `DbState`,
  and rollback returns the original state.
-/

namespace POS

/-- Python scalar value as stored in product dictionaries, the JSON cache
file, and parsed payment-terminal responses. -/
inductive Field where
  | fnone
  | fbool (b : Bool)
  | fint (n : Int)
  | ffloat (q : ℚ)
  | fstr (s : String)
deriving DecidableEq, Repr

/-- Python truthiness (`bool(v)`) of a scalar value. -/
def Field.truthy : Field → Bool
  | .fnone => false
  | .fbool b => b
  | .fint n => decide (n ≠ 0)
  | .ffloat q => decide (q ≠ 0)
  | .fstr s => decide (s ≠ "")

/-- Python `str(v)` for a scalar value.  `str(None) = "None"`; booleans print
capitalised; integers print in decimal.  For rationals with denominator 1 the
Python float repr `"<n>.0"` is produced; other rationals print as fractions
(a modelling divergence from float repr that no theorem here exercises). -/
def Field.pyStr : Field → String
  | .fnone => "None"
  | .fbool true => "True"
  | .fbool false => "False"
  | .fint n => toString n
  | .ffloat q => if q.den = 1 then toString q.num ++ ".0" else toString q
  | .fstr s => s

/-- A Python `dict[str, Any]` restricted to scalar values, as an ordered
association list (Python dictionaries preserve insertion order). -/
abbrev PyDict := List (String × Field)

/-- Python `d.get(k)`: the first binding of `k`, defaulting to `None`. -/
def pyGet : PyDict → String → Field
  | [], _ => .fnone
  | kv :: rest, k => if kv.1 = k then kv.2 else pyGet rest k

/-! ### Payment-terminal response interpretation (uipos.py,
`_interpret_linkly_response`).

The raw bytes of a response are abstracted by three inputs: whether the byte
string was empty (`not response`), the decoded and stripped text, and the
outcome of `json.loads` on that text (`LinklyParse`).  `json.loads` may fail
(`noJson`), return an object (`jdict`, fields restricted to scalar values),
or return any non-object JSON value such as a number, string, array or
boolean (`jother`).  On a non-object value the Python code evaluates
`parsed.get(...)`, which raises an uncaught `AttributeError`; this is the
`Except.error` outcome. -/

/-- Outcome of `json.loads` on the decoded response text. -/
inductive LinklyParse where
  | noJson
  | jdict (fields : PyDict)
  | jother
deriving DecidableEq, Repr

/-- Whether `p` occurs as a contiguous run inside `s` (Python `p in s`). -/
def charsHave (p : List Char) : List Char → Bool
  | [] => p.isEmpty
  | c :: rest => p.isPrefixOf (c :: rest) || charsHave p rest

/-- Python substring test `pat in s` for strings. -/
def strIncludes (s pat : String) : Bool := charsHave pat.data s.data

/-- Embedding of `_interpret_linkly_response`.  `respEmpty` is `not response`
on the raw bytes, `text` the decoded stripped text, `parsed` the result of
`json.loads(text)`.  Returns `(approved, reason)`, or `Except.error` for the
uncaught `AttributeError` raised on non-object JSON. -/
def interpretLinklyResponse (respEmpty : Bool) (text : String)
    (parsed : LinklyParse) : Except Unit (Bool × Option String) :=
  if respEmpty then .ok (false, some "No response from Linkly.")
  else
    match parsed with
    | .noJson =>
        let upper := text.toUpper
        if strIncludes upper "APPROVED" || strIncludes upper "SUCCESS" then
          .ok (true, none)
        else if strIncludes upper "DECLINED" || strIncludes upper "FAILED"
            || strIncludes upper "ERROR" then
          .ok (false, some text)
        else
          .ok (false, some ("Unrecognized Linkly response: " ++ text))
    | .jdict fields =>
        let approved := (pyGet fields "approved").truthy
          || (pyGet fields "success").truthy
        if approved then .ok (true, none)
        else
          let m := pyGet fields "message"
          let rt := pyGet fields "responseText"
          let reason :=
            if m.truthy then m.pyStr
            else if rt.truthy then rt.pyStr
            else "Card payment declined."
          .ok (false, some reason)
    | .jother => .error ()

/-- Response interpretation as worded by the (amended) specification claim:
an empty response fails with the no-response reason; a JSON **object**
response succeeds exactly when the `approved` or `success` field is truthy
and otherwise fails with the `message` field, else the `responseText` field,
else a generic decline string; a non-object JSON response raises; a non-JSON
response is scanned case-insensitively for keywords: approval keywords give
success, decline keywords give failure with the raw text, anything else an
unrecognized-response failure. -/
def interpretLinklySpec (respEmpty : Bool) (text : String)
    (parsed : LinklyParse) : Except Unit (Bool × Option String) :=
  if respEmpty then .ok (false, some "No response from Linkly.")
  else
    match parsed with
    | .noJson =>
        let upper := text.toUpper
        if strIncludes upper "APPROVED" || strIncludes upper "SUCCESS" then
          .ok (true, none)
        else if strIncludes upper "DECLINED" || strIncludes upper "FAILED"
            || strIncludes upper "ERROR" then
          .ok (false, some text)
        else
          .ok (false, some ("Unrecognized Linkly response: " ++ text))
    | .jdict fields =>
        if (pyGet fields "approved").truthy || (pyGet fields "success").truthy then
          .ok (true, none)
        else
          .ok (false, some
            (if (pyGet fields "message").truthy then (pyGet fields "message").pyStr
             else if (pyGet fields "responseText").truthy then
               (pyGet fields "responseText").pyStr
             else "Card payment declined."))
    | .jother => .error ()

/-! ### Driver-compatibility check (model.py, `_validate_mysql_connector`). -/

/-- Accumulating decimal reading of a digit run; fails on a non-digit. -/
def digitsValAux : List Char → ℕ → Option ℕ
  | [], acc => some acc
  | c :: rest, acc =>
      if c.isDigit then digitsValAux rest (10 * acc + (c.toNat - 48)) else none

/-- Value of a non-empty run of decimal digits. -/
def digitsVal (cs : List Char) : Option ℕ :=
  if cs.isEmpty then none else digitsValAux cs 0

/-- Python `int(s)` modelled on strings of an optional sign followed by
decimal digits (Python additionally strips whitespace and allows single
underscores between digits; those inputs are outside this model). -/
def pyParseInt (s : String) : Option Int :=
  match s.data with
  | [] => none
  | c :: rest =>
      if c = '-' then (digitsVal rest).map (fun n => -(n : Int))
      else if c = '+' then (digitsVal rest).map (fun n => (n : Int))
      else (digitsVal (c :: rest)).map (fun n => (n : Int))

/-- Splitting a character list at every dot (Python `s.split(".")`). -/
def splitDots : List Char → List (List Char)
  | [] => [[]]
  | c :: rest =>
      match splitDots rest with
      | [] => [[]]
      | seg :: segs => if c = '.' then [] :: seg :: segs else (c :: seg) :: segs

/-- Embedding of `_validate_mysql_connector`: an empty version string passes;
otherwise the first dot-separated component is parsed with `int`, a parse
failure counting as major version 0, and a `DatabaseError` is raised when
the major version is truthy (nonzero) and below 8.  The error payload
(a message built from the version string) is abstracted to `Unit`. -/
def validateMysqlConnector (version : String) : Except Unit Unit :=
  if version = "" then .ok ()
  else
    let first : String := ⟨(splitDots version.data).headD []⟩
    let major : Int := (pyParseInt first).getD 0
    if major ≠ 0 ∧ major < 8 then .error () else .ok ()

/-- Whether a checked call raised. -/
def raisesDbError (r : Except Unit Unit) : Bool :=
  match r with
  | .error _ => true
  | .ok _ => false

/-! ### Cache loading (model.py, `load_cache`). -/

/-- State of the cache backing file, abstracted by how far reading and
parsing it would get: the file may be missing, unreadable (opening or
reading raises), unparsable JSON, JSON of a non-list value, or a JSON list
of product records. -/
inductive CacheFileState where
  | missing
  | unreadable
  | invalidJson
  | jsonNonList
  | jsonList (l : List PyDict)
deriving DecidableEq, Repr

/-- Embedding of `load_cache`: a missing file yields `[]`; any exception
while opening, reading or JSON-parsing is caught and yields `[]`; a parsed
value that is not a list falls through to the final `return []`; a parsed
list is returned as is. -/
def loadCache : CacheFileState → List PyDict
  | .missing => []
  | .unreadable => []
  | .invalidJson => []
  | .jsonNonList => []
  | .jsonList l => l

/-- Cache loading as worded by the specification claim: the stored product
list when the backing file holds a parsable list, the empty list in every
other file state, and never an error. -/
def loadCacheSpec : CacheFileState → List PyDict
  | .jsonList l => l
  | _ => []

/-! ### Cache merge (model.py, `_merge_into_cache`).

`_merge_into_cache` loads the cache, builds a Python dict keyed by
`str(entry.get("barcode"))` keeping only entries whose barcode value is
truthy, upserts every incoming product under `str(product.get("barcode"))`
whenever that string is non-empty, and persists `list(dict.values())`.
The cache-file round trip is made explicit: the function below maps the
loaded cache list to the persisted cache list. -/

/-- The string key a product is filed under: `str(p.get("barcode"))`. -/
def barcodeKey (p : PyDict) : String := (pyGet p "barcode").pyStr

/-- Python dict insertion `d[k] = v`: an existing key keeps its position and
gets the new value; a new key is appended.  (Python dictionaries never hold
a key twice, and every dict built below starts empty, so replacing the first
occurrence is the exact Python behaviour.) -/
def upsert : List (String × PyDict) → String → PyDict → List (String × PyDict)
  | [], k, v => [(k, v)]
  | kv :: rest, k, v =>
      if kv.1 = k then (k, v) :: rest else kv :: upsert rest k v

/-- Key sequence of an association list. -/
def keysOf (d : List (String × PyDict)) : List String := d.map Prod.fst

/-- First value bound to `k`, if any. -/
def alookup : List (String × PyDict) → String → Option PyDict
  | [], _ => none
  | kv :: rest, k => if kv.1 = k then some kv.2 else alookup rest k

/-- One step of the dict comprehension over the loaded cache: keep an entry
only when its barcode value is truthy. -/
def cacheStep (d : List (String × PyDict)) (p : PyDict) : List (String × PyDict) :=
  if (pyGet p "barcode").truthy then upsert d (barcodeKey p) p else d

/-- Folding the comprehension step over the loaded cache entries. -/
def cacheFold : List (String × PyDict) → List PyDict → List (String × PyDict)
  | d, [] => d
  | d, p :: rest => cacheFold (cacheStep d p) rest

/-- The dict comprehension
`{str(p.get("barcode")): p for p in cache if p.get("barcode")}`. -/
def cacheDictOf (cache : List PyDict) : List (String × PyDict) :=
  cacheFold [] cache

/-- One step of the merge loop: store an incoming product under its barcode
string unless that string is empty. -/
def mergeStep (d : List (String × PyDict)) (p : PyDict) : List (String × PyDict) :=
  if barcodeKey p ≠ "" then upsert d (barcodeKey p) p else d

/-- The merge loop: upsert each incoming product under its barcode string,
skipping products whose barcode string is empty. -/
def mergeFold : List (String × PyDict) → List PyDict → List (String × PyDict)
  | d, [] => d
  | d, p :: rest => mergeFold (mergeStep d p) rest

/-- Embedding of `_merge_into_cache` as a map from loaded cache contents to
persisted cache contents.  An empty product list returns early, leaving the
cache file untouched. -/
def mergeIntoCache (cache : List PyDict) (ps : List PyDict) : List PyDict :=
  if ps.isEmpty then cache
  else (mergeFold (cacheDictOf cache) ps).map Prod.snd

/-- Left-biased choice on optional values (`Option.or`, local copy). -/
def optOr : Option PyDict → Option PyDict → Option PyDict
  | some v, _ => some v
  | none, b => b

/-- The last product of `ps` that the merge loop would store under key `k`
(none for the empty key, which the merge loop skips). -/
def lastKeyed : List PyDict → String → Option PyDict
  | [], _ => none
  | p :: rest, k =>
      optOr (lastKeyed rest k) (if barcodeKey p = k ∧ k ≠ "" then some p else none)

/-! ### Product fetch (model.py, `fetch_product_by_barcode`).

The DB query `SELECT ... WHERE barcode = %s LIMIT 1` is an oracle
`db : String → Option PyDict`; the loaded cache list is passed in and the
possibly rewritten cache list is returned, together with whether the source
of truth was queried. -/

/-- Python `float(s)` on strings, modelled for an optional sign followed by
digits with an optional fractional part (exponents, infinities and
whitespace are outside this model). -/
def parseFloatChars (cs : List Char) : Option ℚ :=
  let core : List Char → Option ℚ := fun body =>
    match body.span (fun c => c.isDigit) with
    | (intPart, rest) =>
        match rest with
        | [] => if intPart.isEmpty then none
                else (digitsVal intPart).map (fun n => (n : ℚ))
        | '.' :: fracPart =>
            if fracPart.all (fun c => c.isDigit)
                ∧ ¬(intPart.isEmpty ∧ fracPart.isEmpty) then
              some ((((digitsVal intPart).getD 0 : ℕ) : ℚ)
                + (((digitsVal fracPart).getD 0 : ℕ) : ℚ)
                  / ((10 : ℚ) ^ fracPart.length))
            else none
        | _ => none
  match cs with
  | '-' :: body => (core body).map (fun q => -q)
  | '+' :: body => core body
  | body => core body

/-- Python `float(v)` on a scalar value: booleans and numbers convert,
`None` raises `TypeError`, strings parse or raise `ValueError`. -/
def pyFloatOf : Field → Option Field
  | .fnone => none
  | .fbool b => some (.ffloat (if b then 1 else 0))
  | .fint n => some (.ffloat (n : ℚ))
  | .ffloat q => some (.ffloat q)
  | .fstr s => (parseFloatChars s.data).map .ffloat

/-- The four keys `_normalize_product` coerces to float. -/
def numericKeys : List String := ["stock", "cost_price", "sell_price", "gst_rate"]

/-- Embedding of `_normalize_product`: an empty (falsy) row maps to the
empty dict; otherwise each binding of a numeric key whose value is not
`None` is float-coerced, a failed coercion keeping the original value. -/
def normalizeProduct (row : PyDict) : PyDict :=
  if row.isEmpty then []
  else row.map (fun kv =>
    if kv.1 ∈ numericKeys ∧ kv.2 ≠ .fnone then (kv.1, (pyFloatOf kv.2).getD kv.2)
    else kv)

/-- Embedding of `_find_in_cache_by_barcode`: an empty (falsy) barcode finds
nothing; otherwise the first cache entry with `str(entry.get("barcode"))`
equal to the barcode. -/
def findInCacheByBarcode (cache : List PyDict) (barcode : String) : Option PyDict :=
  if barcode = "" then none
  else cache.find? (fun p => decide (barcodeKey p = barcode))

/-- Observable outcome of `fetch_product_by_barcode`: the returned product,
whether the source of truth was queried, and the resulting cache contents. -/
structure FetchOutcome where
  result : Option PyDict
  dbQueried : Bool
  cacheAfter : List PyDict
deriving DecidableEq, Repr

/-- The cache-miss path of `fetch_product_by_barcode`: query the source of
truth, normalize a truthy row, and merge a truthy product into the cache. -/
def fetchMiss (cache : List PyDict) (db : String → Option PyDict)
    (barcode : String) : FetchOutcome :=
  let product : Option PyDict :=
    match db barcode with
    | none => none
    | some row => if row.isEmpty then none else some (normalizeProduct row)
  match product with
  | some p =>
      if p.isEmpty then ⟨some p, true, cache⟩
      else ⟨some p, true, mergeIntoCache cache [p]⟩
  | none => ⟨none, true, cache⟩

/-- Embedding of `fetch_product_by_barcode`: a truthy cached hit returns
immediately; a falsy find result (no entry, or an empty dict entry) falls
through to the DB path. -/
def fetchProductByBarcode (cache : List PyDict) (db : String → Option PyDict)
    (barcode : String) : FetchOutcome :=
  match findInCacheByBarcode cache barcode with
  | some cached =>
      if cached.isEmpty then fetchMiss cache db barcode
      else ⟨some cached, false, cache⟩
  | none => fetchMiss cache db barcode

/-! ### Sale transaction (model.py, `record_sale`).

Items are dictionaries with keys `id`, `qty`, `price`, `amount`,
`deduct_unit`; the numeric fields are modelled as present-or-absent
rationals (the callers build them from floats).  The sales table and the
product stock column form the explicit `DbState`; `SELECT`-free statements
executed inside the transaction act on a working copy, `conn.commit()`
publishes it and `conn.rollback()` discards it.  Statement failures of the
MySQL driver are an oracle `fails : ℕ → Bool` indexed by statement order
(statement `2*i` is the insert of item `i`, statement `2*i+1` its stock
update); `_generate_id` (wall clock plus randomness) is an oracle
`idGen : ℕ → Int` indexed by item position. -/

/-- A sale line item as passed to `record_sale`. -/
structure SaleItem where
  pid : Field
  qty : Option ℚ
  price : Option ℚ
  amount : Option ℚ
  deduct : Option ℚ
deriving DecidableEq, Repr

/-- A row of the `sales` table. -/
structure SaleRow where
  saleId : Int
  prodId : Field
  methodType : String
  amount : ℚ
  qty : ℚ
deriving DecidableEq, Repr

/-- The parts of the product database `record_sale` touches: the sales
table and the stock column keyed by product id. -/
structure DbState where
  sales : List SaleRow
  stock : List (Field × ℚ)
deriving DecidableEq, Repr

/-- Which of the two per-item statements failed. -/
inductive DbFailure where
  | insertFailed
  | updateFailed
deriving DecidableEq, Repr

/-- `float(item.get("qty") or 0.0)`: a missing or zero quantity is 0. -/
def qtyEff (it : SaleItem) : ℚ := it.qty.getD 0

/-- `float(item.get("deduct_unit") or 1.0)`: a missing deduct-unit — or a
zero one, since `0.0` is falsy — is replaced by 1. -/
def deductEff (it : SaleItem) : ℚ :=
  match it.deduct with
  | none => 1
  | some d => if d = 0 then 1 else d

/-- The sale row inserted for item `it` at position `i`:
`INSERT INTO sales (id, prod_id, method_type, amount, qty)` with
`item.get("amount", 0.0)` and `item.get("qty", 0.0)`. -/
def saleRowOf (idGen : ℕ → Int) (method : String) (i : ℕ) (it : SaleItem) :
    SaleRow :=
  ⟨idGen i, it.pid, method, it.amount.getD 0, it.qty.getD 0⟩

/-- `UPDATE products SET stock = GREATEST(0, stock - amt) WHERE id = pid`:
every row whose id equals the parameter is floored-decremented; a SQL
`NULL` parameter (`pid = None`) matches no row.  `GREATEST(0, x)` is
written as the executable conditional `if x < 0 then 0 else x`, proved
equal to `max 0 x` below. -/
def applyStockDec (stock : List (Field × ℚ)) (pid : Field) (amt : ℚ) :
    List (Field × ℚ) :=
  stock.map (fun e =>
    if e.1 = pid ∧ pid ≠ .fnone
    then (e.1, if e.2 - amt < 0 then 0 else e.2 - amt) else e)

/-- The statement loop of `record_sale` on the transaction working state:
for item `i`, run the insert (statement `2*i`), then the stock update
(statement `2*i+1`); the first driver failure aborts the loop. -/
def recordLoop (idGen : ℕ → Int) (fails : ℕ → Bool) (method : String) :
    ℕ → List SaleItem → DbState → Except DbFailure DbState
  | _, [], w => .ok w
  | i, it :: rest, w =>
      if fails (2 * i) then .error .insertFailed
      else
        let w1 : DbState :=
          { w with sales := w.sales ++ [saleRowOf idGen method i it] }
        if fails (2 * i + 1) then .error .updateFailed
        else recordLoop idGen fails method (i + 1) rest
          { w1 with stock := applyStockDec w1.stock it.pid (qtyEff it * deductEff it) }

/-- Embedding of `record_sale`: an empty item list returns `False` without
opening a transaction; otherwise the statement loop runs inside one
transaction — on success the working state is committed and `True`
returned, on a driver failure the transaction is rolled back (the database
keeps its original state) and a `DatabaseError` is raised. -/
def recordSale (idGen : ℕ → Int) (fails : ℕ → Bool) (items : List SaleItem)
    (method : String) (db : DbState) : Except DbFailure Bool × DbState :=
  if items.isEmpty then (.ok false, db)
  else
    match recordLoop idGen fails method 0 items db with
    | .ok w => (.ok true, w)
    | .error e => (.error e, db)

/-- The failure oracle of an error-free run. -/
def noFails : ℕ → Bool := fun _ => false

/-- The sale rows a successful `record_sale` appends, starting at item
position `i`. -/
def newSaleRows (idGen : ℕ → Int) (method : String) :
    ℕ → List SaleItem → List SaleRow
  | _, [] => []
  | i, it :: rest => saleRowOf idGen method i it :: newSaleRows idGen method (i + 1) rest

/-- The stock column after a successful `record_sale`: each item applies its
floored decrement in input order. -/
def newStock : List SaleItem → List (Field × ℚ) → List (Field × ℚ)
  | [], st => st
  | it :: rest, st => newStock rest (applyStockDec st it.pid (qtyEff it * deductEff it))

/-! ### Cart collection (uipos.py, `_collect_cart_items`).

A cart row is the three text cells of the table (each possibly absent) plus
the product dictionary remembered for the row (`row_products.get(row, {})`).
Only the `record_sale`-relevant projection of the produced item dictionaries
is modelled. -/

/-- Whitespace characters stripped by Python `str.strip()` (the common
ASCII ones). -/
def isSpaceChar (c : Char) : Bool := c = ' ' || c = '\t' || c = '\n' || c = '\r'

/-- Python `s.strip()`. -/
def pyStrip (s : String) : String :=
  ⟨((s.data.dropWhile isSpaceChar).reverse.dropWhile isSpaceChar).reverse⟩

/-- `_safe_float`: `float(value)` with every exception mapped to 0.0. -/
def safeFloat (s : String) : ℚ := (parseFloatChars s.data).getD 0

/-- One row of the cart table. -/
structure CartRow where
  descText : Option String
  qtyText : Option String
  priceText : Option String
  product : PyDict
deriving Repr

/-- The raw `deduct_unit` a collected item carries:
`product.get("deduct_unit") or 1.0`, read as a rational.  A truthy
non-numeric unparsable value (which `record_sale` would crash on) is outside
this model and defaults to 1. -/
def collectDeduct (product : PyDict) : ℚ :=
  let f := pyGet product "deduct_unit"
  if f.truthy then
    match pyFloatOf f with
    | some (.ffloat q) => q
    | _ => 1
  else 1

/-- Embedding of `_collect_cart_items`: rows without a description cell or
with a whitespace-only description are skipped; quantity and price come
from `_safe_float` on their cells (0.0 for an absent cell); the amount is
recomputed as `qty * price`; the product reference and deduct-unit come
from the remembered product dictionary. -/
def collectCartItems : List CartRow → List SaleItem
  | [] => []
  | r :: rest =>
      match r.descText with
      | none => collectCartItems rest
      | some d =>
          if pyStrip d = "" then collectCartItems rest
          else
            let qty := match r.qtyText with
              | some t => safeFloat t
              | none => 0
            let price := match r.priceText with
              | some t => safeFloat t
              | none => 0
            { pid := pyGet r.product "id", qty := some qty, price := some price,
              amount := some (qty * price),
              deduct := some (collectDeduct r.product) }
              :: collectCartItems rest

/-! ### Attendance clock-out (model.py, `clock_out`). -/

/-- A row of the `attendance` table (the columns `clock_out` can see). -/
structure AttRow where
  aid : Int
  staffId : Int
  timeIn : Option String
  timeOut : Option String
  dateStr : String
deriving DecidableEq, Repr

/-- Embedding of `clock_out`: inside one transaction run
`UPDATE attendance SET time_out = CURTIME() WHERE id = %s`, commit, and
return `cur.rowcount > 0`; a driver failure rolls back and raises.  The
wall clock is the explicit `now`; `rowcount` counts the matched rows. -/
def clockOut (fails : Bool) (now : String) (aid : Int) (tbl : List AttRow) :
    Except Unit Bool × List AttRow :=
  if fails then (.error (), tbl)
  else
    let affected := (tbl.filter (fun r => decide (r.aid = aid))).length
    ( .ok (decide (affected > 0)),
      tbl.map (fun r => if r.aid = aid then { r with timeOut := some now } else r))

/-! ## Theorems -/

/-! ### Association-list lemmas for the barcode-keyed cache dictionary -/

theorem optOr_none_right : ∀ a : Option PyDict, optOr a none = a
  | some _ => rfl
  | none => rfl

theorem alookup_eq_none_of_not_mem :
    ∀ {d : List (String × PyDict)} {k : String}, k ∉ keysOf d → alookup d k = none := by
  intro d
  induction d with
  | nil => intro k _; rfl
  | cons kv rest ih =>
      intro k h
      simp only [keysOf, List.map_cons, List.mem_cons, not_or] at h
      simp only [alookup, if_neg (fun (he : kv.1 = k) => h.1 he.symm)]
      exact ih (by simpa [keysOf] using h.2)

theorem alookup_mem :
    ∀ {d : List (String × PyDict)} {k : String} {v : PyDict},
      alookup d k = some v → (k, v) ∈ d := by
  intro d
  induction d with
  | nil => intro k v h; cases h
  | cons kv rest ih =>
      intro k v h
      simp only [alookup] at h
      split at h
      · next he =>
          have hv : kv.2 = v := Option.some.inj h
          refine List.mem_cons.mpr (Or.inl ?_)
          rw [← he, ← hv]
      · exact List.mem_cons_of_mem _ (ih h)

theorem keysOf_upsert :
    ∀ (d : List (String × PyDict)) (k : String) (v : PyDict),
      keysOf (upsert d k v) = if k ∈ keysOf d then keysOf d else keysOf d ++ [k] := by
  intro d k v
  induction d with
  | nil => simp [upsert, keysOf]
  | cons kv rest ih =>
      by_cases he : kv.1 = k
      · simp [upsert, keysOf, he]
      · simp only [upsert, if_neg he, keysOf, List.map_cons, List.mem_cons]
        simp only [keysOf] at ih
        rw [ih]
        by_cases hm : k ∈ List.map Prod.fst rest
        · rw [if_pos hm, if_pos (Or.inr hm)]
        · rw [if_neg hm,
            if_neg (fun hc => hc.elim (fun (h1 : k = kv.1) => he h1.symm) hm),
            List.cons_append]

theorem mem_keysOf_upsert_self :
    ∀ (d : List (String × PyDict)) (k : String) (v : PyDict),
      k ∈ keysOf (upsert d k v) := by
  intro d k v
  rw [keysOf_upsert]
  split
  · assumption
  · exact List.mem_append_right _ (List.mem_singleton.mpr rfl)

theorem mem_keysOf_upsert_of_mem :
    ∀ {d : List (String × PyDict)} {k' : String} (k : String) (v : PyDict),
      k' ∈ keysOf d → k' ∈ keysOf (upsert d k v) := by
  intro d k' k v h
  rw [keysOf_upsert]
  split
  · exact h
  · exact List.mem_append_left _ h

theorem nodup_keysOf_upsert :
    ∀ {d : List (String × PyDict)} (k : String) (v : PyDict),
      (keysOf d).Nodup → (keysOf (upsert d k v)).Nodup := by
  intro d k v h
  rw [keysOf_upsert]
  split
  · exact h
  · next hnm =>
      rw [List.nodup_append]
      exact ⟨h, List.nodup_singleton k,
        fun a ha hk => hnm (by rwa [List.mem_singleton.mp hk] at ha)⟩

theorem alookup_upsert :
    ∀ (d : List (String × PyDict)) (k : String) (v : PyDict) (k' : String),
      alookup (upsert d k v) k' = if k' = k then some v else alookup d k' := by
  intro d k v
  induction d with
  | nil =>
      intro k'
      simp only [upsert, alookup]
      by_cases h : k' = k
      · rw [if_pos h.symm, if_pos h]
      · rw [if_neg (fun (hh : k = k') => h hh.symm), if_neg h]
  | cons kv rest ih =>
      intro k'
      by_cases he : kv.1 = k
      · simp only [upsert, if_pos he, alookup]
        by_cases h : k' = k
        · rw [if_pos h.symm, if_pos h]
        · rw [if_neg (fun (hh : k = k') => h hh.symm), if_neg h,
            if_neg (fun (hh : kv.1 = k') => h (he.symm.trans hh).symm)]
      · simp only [upsert, if_neg he, alookup, ih]
        by_cases h : k' = k
        · rw [if_pos h, if_neg (fun (hh : kv.1 = k') => he (hh.trans h)), if_pos h]
        · rw [if_neg h, if_neg h]

theorem mem_upsert :
    ∀ {d : List (String × PyDict)} {k : String} {v : PyDict} {w : String × PyDict},
      w ∈ upsert d k v → w ∈ d ∨ w = (k, v) := by
  intro d
  induction d with
  | nil =>
      intro k v w h
      exact Or.inr (List.mem_singleton.mp h)
  | cons kv rest ih =>
      intro k v w h
      simp only [upsert] at h
      split at h
      · rcases List.mem_cons.mp h with h1 | h1
        · exact Or.inr h1
        · exact Or.inl (List.mem_cons_of_mem _ h1)
      · rcases List.mem_cons.mp h with h1 | h1
        · exact Or.inl (h1 ▸ List.mem_cons_self _ _)
        · rcases ih h1 with h2 | h2
          · exact Or.inl (List.mem_cons_of_mem _ h2)
          · exact Or.inr h2

theorem mem_map_snd_upsert :
    ∀ {d : List (String × PyDict)} {k : String} {v w : PyDict},
      w ∈ (upsert d k v).map Prod.snd → w ∈ d.map Prod.snd ∨ w = v := by
  intro d k v w h
  obtain ⟨kv, hkv, rfl⟩ := List.mem_map.mp h
  rcases mem_upsert hkv with h1 | h1
  · exact Or.inl (List.mem_map_of_mem _ h1)
  · exact Or.inr (by rw [h1])

theorem upsert_append :
    ∀ {d : List (String × PyDict)} {k : String} (v : PyDict),
      k ∉ keysOf d → upsert d k v = d ++ [(k, v)] := by
  intro d
  induction d with
  | nil => intro k v _; rfl
  | cons kv rest ih =>
      intro k v h
      simp only [keysOf, List.map_cons, List.mem_cons, not_or] at h
      simp only [upsert, if_neg (fun (he : kv.1 = k) => h.1 he.symm), List.cons_append,
        List.cons.injEq, true_and]
      exact ih v (by simpa [keysOf] using h.2)

theorem cacheFold_kc :
    ∀ (cache : List PyDict) (d : List (String × PyDict)),
      (∀ kv ∈ d, kv.1 = barcodeKey kv.2) →
      ∀ kv ∈ cacheFold d cache, kv.1 = barcodeKey kv.2 := by
  intro cache
  induction cache with
  | nil => intro d hd; exact hd
  | cons p rest ih =>
      intro d hd
      simp only [cacheFold]
      apply ih
      intro kv hkv
      unfold cacheStep at hkv
      split at hkv
      · rcases mem_upsert hkv with h | h
        · exact hd kv h
        · rw [h]
      · exact hd kv hkv

theorem cacheFold_nodup :
    ∀ (cache : List PyDict) (d : List (String × PyDict)),
      (keysOf d).Nodup → (keysOf (cacheFold d cache)).Nodup := by
  intro cache
  induction cache with
  | nil => intro d hd; exact hd
  | cons p rest ih =>
      intro d hd
      simp only [cacheFold]
      apply ih
      unfold cacheStep
      split
      · exact nodup_keysOf_upsert _ _ hd
      · exact hd

theorem cacheFold_vt :
    ∀ (cache : List PyDict) (d : List (String × PyDict)),
      (∀ kv ∈ d, (pyGet kv.2 "barcode").truthy) →
      ∀ kv ∈ cacheFold d cache, (pyGet kv.2 "barcode").truthy := by
  intro cache
  induction cache with
  | nil => intro d hd; exact hd
  | cons p rest ih =>
      intro d hd
      simp only [cacheFold]
      apply ih
      intro kv hkv
      unfold cacheStep at hkv
      split at hkv
      · next ht =>
          rcases mem_upsert hkv with h | h
          · exact hd kv h
          · rw [h]; exact ht
      · exact hd kv hkv

theorem cacheFold_mem :
    ∀ (cache : List PyDict) (d : List (String × PyDict)) (v : PyDict),
      v ∈ (cacheFold d cache).map Prod.snd →
      v ∈ d.map Prod.snd ∨ (v ∈ cache ∧ (pyGet v "barcode").truthy) := by
  intro cache
  induction cache with
  | nil => intro d v h; exact Or.inl h
  | cons p rest ih =>
      intro d v h
      simp only [cacheFold] at h
      rcases ih _ v h with h1 | h1
      · unfold cacheStep at h1
        split at h1
        · next ht =>
            rcases mem_map_snd_upsert h1 with h2 | h2
            · exact Or.inl h2
            · exact Or.inr ⟨h2 ▸ List.mem_cons_self _ _, h2 ▸ ht⟩
        · exact Or.inl h1
      · exact Or.inr ⟨List.mem_cons_of_mem _ h1.1, h1.2⟩

theorem mergeFold_kc :
    ∀ (ps : List PyDict) (d : List (String × PyDict)),
      (∀ kv ∈ d, kv.1 = barcodeKey kv.2) →
      ∀ kv ∈ mergeFold d ps, kv.1 = barcodeKey kv.2 := by
  intro ps
  induction ps with
  | nil => intro d hd; exact hd
  | cons p rest ih =>
      intro d hd
      simp only [mergeFold]
      apply ih
      intro kv hkv
      unfold mergeStep at hkv
      split at hkv
      · rcases mem_upsert hkv with h | h
        · exact hd kv h
        · rw [h]
      · exact hd kv hkv

theorem mergeFold_nodup :
    ∀ (ps : List PyDict) (d : List (String × PyDict)),
      (keysOf d).Nodup → (keysOf (mergeFold d ps)).Nodup := by
  intro ps
  induction ps with
  | nil => intro d hd; exact hd
  | cons p rest ih =>
      intro d hd
      simp only [mergeFold]
      apply ih
      unfold mergeStep
      split
      · exact nodup_keysOf_upsert _ _ hd
      · exact hd

theorem mergeFold_vt :
    ∀ (ps : List PyDict) (d : List (String × PyDict)),
      (∀ p ∈ ps, (pyGet p "barcode").truthy) →
      (∀ kv ∈ d, (pyGet kv.2 "barcode").truthy) →
      ∀ kv ∈ mergeFold d ps, (pyGet kv.2 "barcode").truthy := by
  intro ps
  induction ps with
  | nil => intro d _ hd; exact hd
  | cons p rest ih =>
      intro d hps hd
      simp only [mergeFold]
      apply ih _ (fun q hq => hps q (List.mem_cons_of_mem _ hq))
      intro kv hkv
      unfold mergeStep at hkv
      split at hkv
      · rcases mem_upsert hkv with h | h
        · exact hd kv h
        · rw [h]; exact hps p (List.mem_cons_self _ _)
      · exact hd kv hkv

theorem mergeFold_mem :
    ∀ (ps : List PyDict) (d : List (String × PyDict)) (v : PyDict),
      v ∈ (mergeFold d ps).map Prod.snd → v ∈ d.map Prod.snd ∨ v ∈ ps := by
  intro ps
  induction ps with
  | nil => intro d v h; exact Or.inl h
  | cons p rest ih =>
      intro d v h
      simp only [mergeFold] at h
      rcases ih _ v h with h1 | h1
      · unfold mergeStep at h1
        split at h1
        · rcases mem_map_snd_upsert h1 with h2 | h2
          · exact Or.inl h2
          · exact Or.inr (h2 ▸ List.mem_cons_self _ _)
        · exact Or.inl h1
      · exact Or.inr (List.mem_cons_of_mem _ h1)

theorem alookup_mergeFold :
    ∀ (ps : List PyDict) (d : List (String × PyDict)) (k : String),
      alookup (mergeFold d ps) k = optOr (lastKeyed ps k) (alookup d k) := by
  intro ps
  induction ps with
  | nil => intro d k; rfl
  | cons p rest ih =>
      intro d k
      simp only [mergeFold, lastKeyed, ih]
      by_cases hb : barcodeKey p = k ∧ k ≠ ""
      · rw [if_pos hb]
        have hstep : alookup (mergeStep d p) k = some p := by
          unfold mergeStep
          rw [if_pos (show barcodeKey p ≠ "" from fun h => hb.2 (hb.1.symm.trans h))]
          rw [alookup_upsert, if_pos hb.1.symm]
        rw [hstep]
        cases lastKeyed rest k <;> rfl
      · rw [if_neg hb, optOr_none_right]
        have hstep : alookup (mergeStep d p) k = alookup d k := by
          unfold mergeStep
          split
          · next hne =>
              rw [alookup_upsert,
                if_neg (fun (hh : k = barcodeKey p) =>
                  hb ⟨hh.symm, fun (hk : k = "") => hne (hh ▸ hk)⟩)]
          · rfl
        rw [hstep]

theorem mem_keysOf_mergeFold_of_mem_d :
    ∀ (ps : List PyDict) (d : List (String × PyDict)) (k : String),
      k ∈ keysOf d → k ∈ keysOf (mergeFold d ps) := by
  intro ps
  induction ps with
  | nil => intro d k h; exact h
  | cons p rest ih =>
      intro d k h
      simp only [mergeFold]
      apply ih
      unfold mergeStep
      split
      · exact mem_keysOf_upsert_of_mem _ _ h
      · exact h

theorem mem_keysOf_mergeFold_of_mem_ps :
    ∀ (ps : List PyDict) (d : List (String × PyDict)) (p : PyDict),
      p ∈ ps → barcodeKey p ≠ "" → barcodeKey p ∈ keysOf (mergeFold d ps) := by
  intro ps
  induction ps with
  | nil => intro d p h; cases h
  | cons q rest ih =>
      intro d p hp hbp
      rcases List.mem_cons.mp hp with h | h
      · subst h
        simp only [mergeFold]
        apply mem_keysOf_mergeFold_of_mem_d
        unfold mergeStep
        rw [if_pos hbp]
        exact mem_keysOf_upsert_self _ _ _
      · exact ih _ p h hbp

theorem keysOf_mergeFold_eq :
    ∀ (ps : List PyDict) (d : List (String × PyDict)),
      (∀ p ∈ ps, barcodeKey p ≠ "" → barcodeKey p ∈ keysOf d) →
      keysOf (mergeFold d ps) = keysOf d := by
  intro ps
  induction ps with
  | nil => intro d _; rfl
  | cons p rest ih =>
      intro d h
      have hstep : keysOf (mergeStep d p) = keysOf d := by
        unfold mergeStep
        split
        · next hne =>
            rw [keysOf_upsert, if_pos (h p (List.mem_cons_self _ _) hne)]
        · rfl
      simp only [mergeFold]
      rw [ih (mergeStep d p)
        (fun q hq hbq => hstep ▸ h q (List.mem_cons_of_mem _ hq) hbq), hstep]

theorem assoc_ext :
    ∀ {d e : List (String × PyDict)},
      keysOf d = keysOf e → (keysOf d).Nodup →
      (∀ k, alookup d k = alookup e k) → d = e := by
  intro d
  induction d with
  | nil =>
      intro e hk _ _
      have h0 : List.map Prod.fst e = [] := by simpa [keysOf] using hk.symm
      rw [List.map_eq_nil_iff.mp h0]
  | cons kv rest ih =>
      intro e hk hnd hl
      cases e with
      | nil => exact absurd hk (by simp [keysOf])
      | cons ew erest =>
          simp only [keysOf, List.map_cons] at hk
          injection hk with h1 h2
          have hv : kv.2 = ew.2 := by
            have h := hl kv.1
            simp only [alookup, if_pos rfl, if_pos h1.symm] at h
            exact Option.some.inj h
          have hknotin : kv.1 ∉ keysOf rest := by
            have := (by simpa [keysOf] using hnd : (kv.1 :: List.map Prod.fst rest).Nodup)
            exact (List.nodup_cons.mp this).1
          have htail : rest = erest := by
            refine ih (by simpa [keysOf] using h2)
              (by
                have := (by simpa [keysOf] using hnd :
                  (kv.1 :: List.map Prod.fst rest).Nodup)
                simpa [keysOf] using (List.nodup_cons.mp this).2)
              ?_
            intro k
            by_cases hkk : k = kv.1
            · subst hkk
              rw [alookup_eq_none_of_not_mem hknotin,
                alookup_eq_none_of_not_mem (by simpa [keysOf, ← h2] using hknotin)]
            · have h := hl k
              simp only [alookup, if_neg (fun (hh : kv.1 = k) => hkk hh.symm),
                if_neg (fun (hh : ew.1 = k) => hkk (h1 ▸ hh.symm))] at h
              exact h
          have hhead : kv = ew := by
            rw [← Prod.mk.eta (p := kv), ← Prod.mk.eta (p := ew), h1, hv]
          rw [hhead, htail]

theorem cacheFold_append :
    ∀ (l : List PyDict) (d : List (String × PyDict)) (p : PyDict),
      cacheFold d (l ++ [p]) = cacheStep (cacheFold d l) p := by
  intro l
  induction l with
  | nil => intro d p; rfl
  | cons q rest ih =>
      intro d p
      simp only [List.cons_append, cacheFold]
      exact ih _ _

theorem cacheDictOf_map_snd :
    ∀ {D : List (String × PyDict)},
      (∀ kv ∈ D, kv.1 = barcodeKey kv.2) → (keysOf D).Nodup →
      (∀ kv ∈ D, (pyGet kv.2 "barcode").truthy) →
      cacheDictOf (D.map Prod.snd) = D := by
  intro D
  induction D using List.reverseRecOn with
  | nil => intro _ _ _; rfl
  | append_singleton D kv ih =>
      intro hkc hnd hvt
      have hkcD : ∀ w ∈ D, w.1 = barcodeKey w.2 :=
        fun w hw => hkc w (List.mem_append_left _ hw)
      have hvtD : ∀ w ∈ D, (pyGet w.2 "barcode").truthy :=
        fun w hw => hvt w (List.mem_append_left _ hw)
      have hndD : (keysOf D).Nodup := by
        have : (keysOf D ++ [kv.1]).Nodup := by
          simpa [keysOf, List.map_append] using hnd
        exact (List.nodup_append.mp this).1
      have hfresh : kv.1 ∉ keysOf D := by
        have : (keysOf D ++ [kv.1]).Nodup := by
          simpa [keysOf, List.map_append] using hnd
        have hdisj := (List.nodup_append.mp this).2.2
        exact fun hmem => hdisj hmem (List.mem_singleton.mpr rfl)
      have hkv : kv.1 = barcodeKey kv.2 := hkc kv (List.mem_append_right _ (List.mem_singleton.mpr rfl))
      have htr : (pyGet kv.2 "barcode").truthy := hvt kv (List.mem_append_right _ (List.mem_singleton.mpr rfl))
      rw [List.map_append, List.map_singleton, cacheDictOf, cacheFold_append]
      have hIH : cacheFold [] (D.map Prod.snd) = D := by
        rw [← cacheDictOf]
        exact ih hkcD hndD hvtD
      rw [hIH]
      unfold cacheStep
      rw [if_pos htr, ← hkv, upsert_append kv.2 hfresh, Prod.mk.eta]

theorem filter_map_snd :
    ∀ {D : List (String × PyDict)} (k : String),
      (keysOf D).Nodup → (∀ kv ∈ D, kv.1 = barcodeKey kv.2) →
      (D.map Prod.snd).filter (fun v => decide (barcodeKey v = k))
        = (alookup D k).toList := by
  intro D
  induction D with
  | nil => intro k _ _; rfl
  | cons kv rest ih =>
      intro k hnd hkc
      have hhd : kv.1 = barcodeKey kv.2 := hkc kv (List.mem_cons_self _ _)
      have hndr : (keysOf rest).Nodup := by
        have : (kv.1 :: keysOf rest).Nodup := by simpa [keysOf] using hnd
        exact (List.nodup_cons.mp this).2
      have hkcr : ∀ w ∈ rest, w.1 = barcodeKey w.2 :=
        fun w hw => hkc w (List.mem_cons_of_mem _ hw)
      rw [List.map_cons, List.filter_cons]
      by_cases hbk : barcodeKey kv.2 = k
      · rw [if_pos (by simpa using hbk)]
        have h1 : alookup (kv :: rest) k = some kv.2 := by
          simp only [alookup, if_pos (hhd.trans hbk)]
        rw [h1]
        have hknotin : k ∉ keysOf rest := by
          have : (kv.1 :: keysOf rest).Nodup := by simpa [keysOf] using hnd
          have := (List.nodup_cons.mp this).1
          rwa [hhd.trans hbk] at this
        have hrest : (rest.map Prod.snd).filter (fun v => decide (barcodeKey v = k)) = [] := by
          rw [List.filter_eq_nil_iff]
          intro v hv
          obtain ⟨w, hw, rfl⟩ := List.mem_map.mp hv
          simp only [decide_eq_true_eq]
          intro hcon
          exact hknotin ((hkcr w hw).trans hcon ▸ List.mem_map_of_mem Prod.fst hw)
        rw [hrest]
        rfl
      · rw [if_neg (by simpa using hbk)]
        have h1 : alookup (kv :: rest) k = alookup rest k := by
          simp only [alookup, if_neg (fun (hh : kv.1 = k) => hbk (hhd ▸ hh))]
        rw [h1]
        exact ih k hndr hkcr

theorem lastKeyed_eq :
    ∀ (ps : List PyDict) (k : String),
      lastKeyed ps k
        = if k = "" then none
          else (ps.filter (fun p => decide (barcodeKey p = k))).getLast? := by
  intro ps
  induction ps with
  | nil => intro k; simp [lastKeyed]
  | cons p rest ih =>
      intro k
      by_cases hk : k = ""
      · subst hk
        simp [lastKeyed, ih, optOr]
      · simp only [lastKeyed, ih, if_neg hk, List.filter_cons]
        by_cases hbp : barcodeKey p = k
        · rw [if_pos (⟨hbp, hk⟩ : barcodeKey p = k ∧ ¬(k = "")),
            if_pos (show decide (barcodeKey p = k) = true by simpa using hbp)]
          cases hfr : (rest.filter (fun q => decide (barcodeKey q = k))) with
          | nil => simp [optOr]
          | cons q t =>
              rw [List.getLast?_cons_cons]
              cases hgl : (q :: t).getLast? with
              | none => exact absurd (List.getLast?_eq_none_iff.mp hgl) (by simp)
              | some x => simp [optOr]
        · rw [if_neg (fun (hc : barcodeKey p = k ∧ k ≠ "") => hbp hc.1),
            if_neg (show ¬(decide (barcodeKey p = k) = true) by simpa using hbp),
            optOr_none_right]

theorem map_bk_values :
    ∀ {D : List (String × PyDict)},
      (∀ kv ∈ D, kv.1 = barcodeKey kv.2) →
      (D.map Prod.snd).map barcodeKey = keysOf D := by
  intro D hkc
  rw [List.map_map, keysOf]
  exact List.map_congr_left (fun kv hm => (hkc kv hm).symm)

theorem mergeIntoCache_eq :
    ∀ (c ps : List PyDict), ps ≠ [] →
      mergeIntoCache c ps = (mergeFold (cacheDictOf c) ps).map Prod.snd := by
  intro c ps hne
  have hpe : ps.isEmpty = false := by
    cases ps with
    | nil => exact absurd rfl hne
    | cons _ _ => rfl
  simp [mergeIntoCache, hpe]

/-- Claim C1, counterexample.  The claim quantifies over every response byte
string and asserts that the interpreter always *returns* an outcome; but on
a response whose text parses as non-object JSON — e.g. the bytes `b"5"`,
whose stripped decoding is `"5"` and on which `json.loads` returns the
number 5 — `parsed.get("approved")` raises an uncaught `AttributeError`
instead of returning the generic-decline failure the claim prescribes for a
JSON response without approval fields. -/
theorem interpret_nonobject_json_raises :
    interpretLinklyResponse false "5" .jother = .error () := rfl

/-- Claim C1 (amended): for every payment-terminal response — abstracted by
emptiness of the raw bytes, the decoded stripped text, and the `json.loads`
outcome — the interpreter behaves exactly as the specification sentence
describes, with the JSON case restricted to JSON objects; a non-object JSON
response raises instead of returning. -/
theorem interpret_matches_spec :
    ∀ (respEmpty : Bool) (text : String) (parsed : LinklyParse),
      interpretLinklyResponse respEmpty text parsed
        = interpretLinklySpec respEmpty text parsed := by
  intro e t p
  cases e <;> cases p <;> rfl

/-- Claim C6: `load_cache` never surfaces an error; it returns the stored
list exactly when the backing file parses to a list, and the empty list for
a missing, unreadable, unparsable or non-list file. -/
theorem loadCache_matches_spec : ∀ fs, loadCache fs = loadCacheSpec fs := by
  intro fs
  cases fs <;> rfl

/-- Claim C10, counterexample.  The version string `"-1.0"` has first
dot-separated component `"-1"`, which `int()` parses to −1; the claim says
the check raises only for a first component in `[1, 8)`, yet the code —
whose guard is `major and major < 8` — raises on −1 as well. -/
theorem validate_negative_major_raises :
    (⟨(splitDots ("-1.0" : String).data).headD []⟩ : String) = "-1"
    ∧ pyParseInt "-1" = some (-1)
    ∧ ¬((1 : Int) ≤ -1)
    ∧ raisesDbError (validateMysqlConnector "-1.0") = true := by
  refine ⟨by decide, by decide, by decide, by decide⟩

/-- Claim C10 (amended): the driver check raises exactly when the first
dot-separated component of the version string parses to a nonzero integer
below 8; an empty version string, or one whose first component does not
parse as an integer, passes silently. -/
theorem validate_raises_iff (version : String) :
    raisesDbError (validateMysqlConnector version) = true
      ↔ ∃ n : Int,
          pyParseInt ⟨(splitDots version.data).headD []⟩ = some n
            ∧ n ≠ 0 ∧ n < 8 := by
  unfold validateMysqlConnector
  by_cases hv : version = ""
  · subst hv
    rw [if_pos rfl]
    have hparse : (pyParseInt ⟨(splitDots ("" : String).data).headD []⟩ : Option Int)
        = none := rfl
    rw [hparse]
    simp [raisesDbError]
  · rw [if_neg hv]
    cases hp : (pyParseInt ⟨(splitDots version.data).headD []⟩ : Option Int) with
    | none =>
        simp only [hp, Option.getD_none, Option.getD_some]
        simp [raisesDbError]
    | some n =>
        simp only [hp, Option.getD_none, Option.getD_some]
        by_cases hc : n ≠ 0 ∧ n < 8
        · rw [if_pos hc]
          simp [raisesDbError, hc.1, hc.2]
        · rw [if_neg hc]
          simp only [raisesDbError]
          constructor
          · intro h; exact absurd h (by simp)
          · rintro ⟨m, hm, hm0, hm8⟩
            rw [Option.some_inj] at hm
            exact absurd ⟨hm ▸ hm0, hm ▸ hm8⟩ hc

/-- Claim C10, witness: the amended iff instantiated at the version string
`"2.2.9"`, whose first component parses to 2 and therefore raises. -/
theorem validate_raises_iff_witness :
    raisesDbError (validateMysqlConnector "2.2.9") = true
      ↔ ∃ n : Int,
          pyParseInt ⟨(splitDots ("2.2.9" : String).data).headD []⟩ = some n
            ∧ n ≠ 0 ∧ n < 8 :=
  validate_raises_iff "2.2.9"

/-- Claim C3, counterexample.  Two merged snapshots both carry the barcode
`""`; the claim says exactly one cache entry with that barcode remains,
carrying the later snapshot — but the merge loop skips every product whose
barcode string is empty, so no entry at all survives. -/
theorem merge_empty_barcode_no_entry :
    mergeIntoCache []
      [[("barcode", Field.fstr ""), ("name", Field.fstr "a")],
       [("barcode", Field.fstr ""), ("name", Field.fstr "b")]] = [] := by decide

/-- Claim C3 (amended): for product lists in which every product carries a
truthy barcode with a non-empty string form, `_merge_into_cache` is
idempotent (merging the same list twice produces the same persisted cache
as merging it once), last-write-wins (for any merged product, exactly one
entry with its barcode string remains, namely the last merged snapshot with
that barcode string), and leaves no two cache entries sharing a barcode
string. -/
theorem merge_idempotent_lww (cache ps : List PyDict)
    (hps : ∀ p ∈ ps, (pyGet p "barcode").truthy ∧ barcodeKey p ≠ "")
    (hne : ps ≠ []) :
    mergeIntoCache (mergeIntoCache cache ps) ps = mergeIntoCache cache ps
    ∧ (∀ p ∈ ps,
        (mergeIntoCache cache ps).filter
            (fun v => decide (barcodeKey v = barcodeKey p))
          = ((ps.filter (fun q => decide (barcodeKey q = barcodeKey p))).getLast?).toList)
    ∧ ((mergeIntoCache cache ps).map barcodeKey).Nodup := by
  have kc0 : ∀ kv ∈ cacheDictOf cache, kv.1 = barcodeKey kv.2 :=
    cacheFold_kc cache [] (by intro kv h; cases h)
  have nd0 : (keysOf (cacheDictOf cache)).Nodup :=
    cacheFold_nodup cache [] (by simp [keysOf])
  have vt0 : ∀ kv ∈ cacheDictOf cache, (pyGet kv.2 "barcode").truthy :=
    cacheFold_vt cache [] (by intro kv h; cases h)
  have kc1 : ∀ kv ∈ mergeFold (cacheDictOf cache) ps, kv.1 = barcodeKey kv.2 :=
    mergeFold_kc ps _ kc0
  have nd1 : (keysOf (mergeFold (cacheDictOf cache) ps)).Nodup :=
    mergeFold_nodup ps _ nd0
  have vt1 : ∀ kv ∈ mergeFold (cacheDictOf cache) ps, (pyGet kv.2 "barcode").truthy :=
    mergeFold_vt ps _ (fun p hp => (hps p hp).1) vt0
  refine ⟨?_, ?_, ?_⟩
  · have hreb : cacheDictOf ((mergeFold (cacheDictOf cache) ps).map Prod.snd)
        = mergeFold (cacheDictOf cache) ps := cacheDictOf_map_snd kc1 nd1 vt1
    have hKeq : keysOf (mergeFold (mergeFold (cacheDictOf cache) ps) ps)
        = keysOf (mergeFold (cacheDictOf cache) ps) :=
      keysOf_mergeFold_eq ps _
        (fun p hp h => mem_keysOf_mergeFold_of_mem_ps ps _ p hp h)
    have hLeq : ∀ k, alookup (mergeFold (mergeFold (cacheDictOf cache) ps) ps) k
        = alookup (mergeFold (cacheDictOf cache) ps) k := by
      intro k
      rw [alookup_mergeFold, alookup_mergeFold]
      cases lastKeyed ps k <;> rfl
    have hfold : mergeFold (mergeFold (cacheDictOf cache) ps) ps
        = mergeFold (cacheDictOf cache) ps :=
      assoc_ext hKeq (by rw [hKeq]; exact nd1) hLeq
    rw [mergeIntoCache_eq cache ps hne,
      mergeIntoCache_eq ((mergeFold (cacheDictOf cache) ps).map Prod.snd) ps hne,
      hreb, hfold]
  · intro p hp
    rw [mergeIntoCache_eq cache ps hne, filter_map_snd (barcodeKey p) nd1 kc1,
      alookup_mergeFold, lastKeyed_eq, if_neg (hps p hp).2]
    have hfne : ps.filter (fun q => decide (barcodeKey q = barcodeKey p)) ≠ [] :=
      List.ne_nil_of_mem (List.mem_filter.mpr ⟨hp, by simp⟩)
    cases hgl : (ps.filter (fun q => decide (barcodeKey q = barcodeKey p))).getLast? with
    | none => exact absurd (List.getLast?_eq_none_iff.mp hgl) hfne
    | some q => rfl
  · rw [mergeIntoCache_eq cache ps hne, map_bk_values kc1]
    exact nd1

/-- Claim C3, witness: the amended theorem applied to a one-entry cache and
two snapshots sharing barcode `"1"`. -/
theorem merge_idempotent_lww_witness :
    (∀ p ∈ ([[("barcode", Field.fstr "1"), ("name", Field.fstr "old")],
             [("barcode", Field.fstr "1"), ("name", Field.fstr "new")]] : List PyDict),
        (pyGet p "barcode").truthy ∧ barcodeKey p ≠ "")
    ∧ ([[("barcode", Field.fstr "1"), ("name", Field.fstr "old")],
        [("barcode", Field.fstr "1"), ("name", Field.fstr "new")]] : List PyDict) ≠ []
    ∧ (mergeIntoCache
          (mergeIntoCache [[("barcode", Field.fstr "9"), ("name", Field.fstr "z")]]
            [[("barcode", Field.fstr "1"), ("name", Field.fstr "old")],
             [("barcode", Field.fstr "1"), ("name", Field.fstr "new")]])
          [[("barcode", Field.fstr "1"), ("name", Field.fstr "old")],
           [("barcode", Field.fstr "1"), ("name", Field.fstr "new")]]
        = mergeIntoCache [[("barcode", Field.fstr "9"), ("name", Field.fstr "z")]]
            [[("barcode", Field.fstr "1"), ("name", Field.fstr "old")],
             [("barcode", Field.fstr "1"), ("name", Field.fstr "new")]])
    ∧ (∀ p ∈ ([[("barcode", Field.fstr "1"), ("name", Field.fstr "old")],
               [("barcode", Field.fstr "1"), ("name", Field.fstr "new")]] : List PyDict),
        (mergeIntoCache [[("barcode", Field.fstr "9"), ("name", Field.fstr "z")]]
            [[("barcode", Field.fstr "1"), ("name", Field.fstr "old")],
             [("barcode", Field.fstr "1"), ("name", Field.fstr "new")]]).filter
            (fun v => decide (barcodeKey v = barcodeKey p))
          = ((([[("barcode", Field.fstr "1"), ("name", Field.fstr "old")],
               [("barcode", Field.fstr "1"), ("name", Field.fstr "new")]] : List PyDict).filter
              (fun q => decide (barcodeKey q = barcodeKey p))).getLast?).toList)
    ∧ ((mergeIntoCache [[("barcode", Field.fstr "9"), ("name", Field.fstr "z")]]
          [[("barcode", Field.fstr "1"), ("name", Field.fstr "old")],
           [("barcode", Field.fstr "1"), ("name", Field.fstr "new")]]).map barcodeKey).Nodup := by
  have h := merge_idempotent_lww
    [[("barcode", Field.fstr "9"), ("name", Field.fstr "z")]]
    [[("barcode", Field.fstr "1"), ("name", Field.fstr "old")],
     [("barcode", Field.fstr "1"), ("name", Field.fstr "new")]]
    (by decide) (by decide)
  exact ⟨by decide, by decide, h.1, h.2.1, h.2.2⟩

/-- Claim C9, counterexample.  With incoming products `[{}, {"barcode":
"None"}]` the barcode-less `{}` is filed under the literal key `"None"` and
is then overwritten by the later product whose barcode is the *string*
`"None"` — `str` maps both to the same key.  The last barcode-less product
does not survive: zero barcode-less entries remain instead of one, so the
claim as stated is false. -/
theorem merge_none_string_key_collision :
    mergeIntoCache [] [[], [("barcode", Field.fstr "None")]]
      = [[("barcode", Field.fstr "None")]]
    ∧ (mergeIntoCache [] [[], [("barcode", Field.fstr "None")]]).filter
        (fun v => decide (pyGet v "barcode" = Field.fnone)) = []
    ∧ (([[], [("barcode", Field.fstr "None")]] : List PyDict).filter
        (fun p => decide (pyGet p "barcode" = Field.fnone))).getLast? = some [] := by
  refine ⟨by decide, by decide, by decide⟩

/-- Claim C9 (amended): when the merge runs with at least one barcode-less
incoming product, every pre-existing cache entry with a missing or falsy
barcode is dropped (unless re-introduced as an incoming product), and every
barcode-less incoming product is filed under the literal string key
`"None"`; provided no incoming product carries the literal string `"None"`
as its barcode value — such a product maps to the same key and can
overwrite the barcode-less one — exactly the last barcode-less incoming
product survives the merge as the single barcode-less cache entry. -/
theorem merge_none_barcode (cache ps : List PyDict)
    (hnone : ∀ p ∈ ps, barcodeKey p = "None" → pyGet p "barcode" = Field.fnone)
    (hnl : ps.filter (fun p => decide (pyGet p "barcode" = Field.fnone)) ≠ []) :
    (∀ e ∈ cache, (pyGet e "barcode").truthy = false → e ∉ ps →
      e ∉ mergeIntoCache cache ps)
    ∧ (∀ p ∈ ps, pyGet p "barcode" = Field.fnone → barcodeKey p = "None")
    ∧ (mergeIntoCache cache ps).filter
        (fun v => decide (pyGet v "barcode" = Field.fnone))
      = ((ps.filter (fun p => decide (pyGet p "barcode" = Field.fnone))).getLast?).toList := by
  have hne : ps ≠ [] := by
    intro h
    rw [h] at hnl
    exact hnl rfl
  have kc0 : ∀ kv ∈ cacheDictOf cache, kv.1 = barcodeKey kv.2 :=
    cacheFold_kc cache [] (by intro kv h; cases h)
  have nd0 : (keysOf (cacheDictOf cache)).Nodup :=
    cacheFold_nodup cache [] (by simp [keysOf])
  have kc1 : ∀ kv ∈ mergeFold (cacheDictOf cache) ps, kv.1 = barcodeKey kv.2 :=
    mergeFold_kc ps _ kc0
  have nd1 : (keysOf (mergeFold (cacheDictOf cache) ps)).Nodup :=
    mergeFold_nodup ps _ nd0
  refine ⟨?_, ?_, ?_⟩
  · intro e he hft hnp hmem
    rw [mergeIntoCache_eq cache ps hne] at hmem
    rcases mergeFold_mem ps _ e hmem with h1 | h1
    · rcases cacheFold_mem cache [] e h1 with h2 | h2
      · simp at h2
      · exact absurd h2.2 (by simp [hft])
    · exact hnp h1
  · intro p _ h
    unfold barcodeKey
    rw [h]
    rfl
  · rw [mergeIntoCache_eq cache ps hne]
    obtain ⟨q, hq⟩ : ∃ q,
        (ps.filter (fun p => decide (pyGet p "barcode" = Field.fnone))).getLast?
          = some q := by
      cases hgl : (ps.filter (fun p => decide (pyGet p "barcode" = Field.fnone))).getLast? with
      | none => exact absurd (List.getLast?_eq_none_iff.mp hgl) hnl
      | some q => exact ⟨q, rfl⟩
    have hqfn : pyGet q "barcode" = Field.fnone := by
      have hqmem : q ∈ ps.filter (fun p => decide (pyGet p "barcode" = Field.fnone)) :=
        List.mem_of_mem_getLast? (by rw [hq]; exact rfl)
      have := List.mem_filter.mp hqmem
      simpa using this.2
    have hstep4 : ps.filter (fun p => decide (barcodeKey p = "None"))
        = ps.filter (fun p => decide (pyGet p "barcode" = Field.fnone)) := by
      apply List.filter_congr
      intro p hp
      by_cases hfn : pyGet p "barcode" = Field.fnone
      · have hb : barcodeKey p = "None" := by
          unfold barcodeKey
          rw [hfn]
          rfl
        simp [hfn, hb]
      · have hb : barcodeKey p ≠ "None" := fun hh => hfn (hnone p hp hh)
        simp [hfn, hb]
    have hlookup : alookup (mergeFold (cacheDictOf cache) ps) "None" = some q := by
      rw [alookup_mergeFold, lastKeyed_eq,
        if_neg (by decide : ¬("None" : String) = ""), hstep4, hq]
      rfl
    have hbkfilter : ((mergeFold (cacheDictOf cache) ps).map Prod.snd).filter
        (fun v => decide (barcodeKey v = "None")) = [q] := by
      rw [filter_map_snd "None" nd1 kc1, hlookup]
      rfl
    have hpt : ∀ v : PyDict, decide (pyGet v "barcode" = Field.fnone)
        = (decide (pyGet v "barcode" = Field.fnone)
            && decide (barcodeKey v = "None")) := by
      intro v
      by_cases hv : pyGet v "barcode" = Field.fnone
      · have hb : barcodeKey v = "None" := by
          unfold barcodeKey
          rw [hv]
          rfl
        simp [hv, hb]
      · simp [hv]
    rw [hq]
    calc ((mergeFold (cacheDictOf cache) ps).map Prod.snd).filter
          (fun v => decide (pyGet v "barcode" = Field.fnone))
        = ((mergeFold (cacheDictOf cache) ps).map Prod.snd).filter
            (fun v => decide (pyGet v "barcode" = Field.fnone)
              && decide (barcodeKey v = "None")) :=
          List.filter_congr (fun v _ => hpt v)
      _ = (((mergeFold (cacheDictOf cache) ps).map Prod.snd).filter
            (fun v => decide (barcodeKey v = "None"))).filter
            (fun v => decide (pyGet v "barcode" = Field.fnone)) :=
          (@List.filter_filter _ _ _ _).symm
      _ = ([q]).filter (fun v => decide (pyGet v "barcode" = Field.fnone)) := by
          rw [hbkfilter]
      _ = [q] := by simp [hqfn]
      _ = (Option.some q).toList := rfl

/-- Claim C9, witness: a cache holding a truthy-barcode entry and a falsy
(barcode `None`) entry, merged with a product without a barcode key, a
product with barcode `None`, and a normal product. -/
theorem merge_none_barcode_witness :
    (∀ p ∈ ([[("name", Field.fstr "p1")],
             [("barcode", Field.fnone), ("name", Field.fstr "p2")],
             [("barcode", Field.fstr "2")]] : List PyDict),
        barcodeKey p = "None" → pyGet p "barcode" = Field.fnone)
    ∧ ([[("name", Field.fstr "p1")],
        [("barcode", Field.fnone), ("name", Field.fstr "p2")],
        [("barcode", Field.fstr "2")]] : List PyDict).filter
        (fun p => decide (pyGet p "barcode" = Field.fnone)) ≠ []
    ∧ (∀ e ∈ ([[("barcode", Field.fstr "1")],
               [("barcode", Field.fnone), ("name", Field.fstr "old")]] : List PyDict),
        (pyGet e "barcode").truthy = false →
        e ∉ ([[("name", Field.fstr "p1")],
              [("barcode", Field.fnone), ("name", Field.fstr "p2")],
              [("barcode", Field.fstr "2")]] : List PyDict) →
        e ∉ mergeIntoCache
            [[("barcode", Field.fstr "1")],
             [("barcode", Field.fnone), ("name", Field.fstr "old")]]
            [[("name", Field.fstr "p1")],
             [("barcode", Field.fnone), ("name", Field.fstr "p2")],
             [("barcode", Field.fstr "2")]])
    ∧ (mergeIntoCache
          [[("barcode", Field.fstr "1")],
           [("barcode", Field.fnone), ("name", Field.fstr "old")]]
          [[("name", Field.fstr "p1")],
           [("barcode", Field.fnone), ("name", Field.fstr "p2")],
           [("barcode", Field.fstr "2")]]).filter
          (fun v => decide (pyGet v "barcode" = Field.fnone))
        = ((([[("name", Field.fstr "p1")],
             [("barcode", Field.fnone), ("name", Field.fstr "p2")],
             [("barcode", Field.fstr "2")]] : List PyDict).filter
            (fun p => decide (pyGet p "barcode" = Field.fnone))).getLast?).toList := by
  have h := merge_none_barcode
    [[("barcode", Field.fstr "1")],
     [("barcode", Field.fnone), ("name", Field.fstr "old")]]
    [[("name", Field.fstr "p1")],
     [("barcode", Field.fnone), ("name", Field.fstr "p2")],
     [("barcode", Field.fstr "2")]]
    (by decide) (by decide)
  exact ⟨by decide, by decide, h.1, h.2.2⟩

theorem recordLoop_ok :
    ∀ (its : List SaleItem) (idGen : ℕ → Int) (fails : ℕ → Bool) (method : String)
      (i : ℕ) (w : DbState),
      (∀ j, 2 * i ≤ j → j < 2 * i + 2 * its.length → fails j = false) →
      recordLoop idGen fails method i its w
        = .ok ⟨w.sales ++ newSaleRows idGen method i its, newStock its w.stock⟩ := by
  intro its idGen fails method
  induction its with
  | nil => intro i w _; simp [recordLoop, newSaleRows, newStock]
  | cons it rest ih =>
      intro i w h
      have h0 : fails (2 * i) = false :=
        h _ (le_refl _) (by simp only [List.length_cons]; omega)
      have h1 : fails (2 * i + 1) = false :=
        h _ (by omega) (by simp only [List.length_cons]; omega)
      simp only [recordLoop, h0, h1, Bool.false_eq_true, if_false]
      rw [ih (i + 1) _ (fun j hj1 hj2 => h j (by omega)
        (by simp only [List.length_cons]; omega))]
      simp [newSaleRows, newStock, List.append_assoc]

theorem recordLoop_ok_no_fail :
    ∀ (its : List SaleItem) (idGen : ℕ → Int) (fails : ℕ → Bool) (method : String)
      (i : ℕ) (w w' : DbState),
      recordLoop idGen fails method i its w = .ok w' →
      ∀ j, 2 * i ≤ j → j < 2 * i + 2 * its.length → fails j = false := by
  intro its idGen fails method
  induction its with
  | nil =>
      intro i w w' _ j hj1 hj2
      rw [List.length_nil] at hj2
      exact absurd hj1 (by omega)
  | cons it rest ih =>
      intro i w w' hl j hj1 hj2
      rw [List.length_cons] at hj2
      by_cases h0 : fails (2 * i) = true
      · simp [recordLoop, h0] at hl
      · have h0' : fails (2 * i) = false := by
          revert h0; cases fails (2 * i) <;> simp
        by_cases h1 : fails (2 * i + 1) = true
        · simp [recordLoop, h0', h1] at hl
        · have h1' : fails (2 * i + 1) = false := by
            revert h1; cases fails (2 * i + 1) <;> simp
          simp only [recordLoop, h0', h1', Bool.false_eq_true, if_false] at hl
          by_cases hj : j = 2 * i
          · rw [hj]; exact h0'
          · by_cases hj' : j = 2 * i + 1
            · rw [hj']; exact h1'
            · exact ih (i + 1) _ w' hl j (by omega) (by omega)

/-- Claim C2: `record_sale` on a non-empty item list is all-or-nothing.  If
none of the per-item statements fails, the commit publishes exactly the new
sale rows and all the stock decrements; if any statement in range fails, the
transaction is rolled back — the database state is the original one, with
zero sale rows and zero stock changes — and a `DatabaseError` (the
specification taxonomy calls it `QueryError`) is raised. -/
theorem recordSale_atomic (idGen : ℕ → Int) (fails : ℕ → Bool) (items : List SaleItem)
    (method : String) (db : DbState) (hne : items ≠ []) :
    ((∀ j, j < 2 * items.length → fails j = false) →
      recordSale idGen fails items method db
        = (.ok true, ⟨db.sales ++ newSaleRows idGen method 0 items,
            newStock items db.stock⟩))
    ∧ ((∃ j, j < 2 * items.length ∧ fails j = true) →
      (recordSale idGen fails items method db).2 = db
        ∧ ∃ e, (recordSale idGen fails items method db).1 = .error e) := by
  have hpe : items.isEmpty = false := by
    cases items with
    | nil => exact absurd rfl hne
    | cons _ _ => rfl
  constructor
  · intro hok
    simp only [recordSale, hpe, Bool.false_eq_true, if_false]
    rw [recordLoop_ok items idGen fails method 0 db
      (fun j _ hj2 => hok j (by omega))]
  · rintro ⟨j, hj, hjt⟩
    simp only [recordSale, hpe, Bool.false_eq_true, if_false]
    cases hloop : recordLoop idGen fails method 0 items db with
    | ok w =>
        have := recordLoop_ok_no_fail items idGen fails method 0 db w hloop j
          (by omega) (by omega)
        rw [this] at hjt
        cases hjt
    | error e => exact ⟨rfl, e, rfl⟩

/-- Claim C2, witness: three items, the failure oracle making the second
item's insert (statement index 2) fail — the roll-back branch of the
theorem applied to a concrete database. -/
theorem recordSale_atomic_witness :
    (([⟨Field.fint 1, some 1, some 1, some 1, some 1⟩,
       ⟨Field.fint 2, some 1, some 1, some 1, some 1⟩,
       ⟨Field.fint 3, some 1, some 1, some 1, some 1⟩] : List SaleItem) ≠ [])
    ∧ ((2 : ℕ) < 2 * ([⟨Field.fint 1, some 1, some 1, some 1, some 1⟩,
       ⟨Field.fint 2, some 1, some 1, some 1, some 1⟩,
       ⟨Field.fint 3, some 1, some 1, some 1, some 1⟩] : List SaleItem).length
        ∧ (fun j => decide (j = 2)) 2 = true)
    ∧ (recordSale (fun _ => 0) (fun j => decide (j = 2))
        [⟨Field.fint 1, some 1, some 1, some 1, some 1⟩,
         ⟨Field.fint 2, some 1, some 1, some 1, some 1⟩,
         ⟨Field.fint 3, some 1, some 1, some 1, some 1⟩] "cash"
        ⟨[], [(Field.fint 1, 10), (Field.fint 2, 10), (Field.fint 3, 10)]⟩).2
      = ⟨[], [(Field.fint 1, 10), (Field.fint 2, 10), (Field.fint 3, 10)]⟩
    ∧ ∃ e, (recordSale (fun _ => 0) (fun j => decide (j = 2))
        [⟨Field.fint 1, some 1, some 1, some 1, some 1⟩,
         ⟨Field.fint 2, some 1, some 1, some 1, some 1⟩,
         ⟨Field.fint 3, some 1, some 1, some 1, some 1⟩] "cash"
        ⟨[], [(Field.fint 1, 10), (Field.fint 2, 10), (Field.fint 3, 10)]⟩).1
      = .error e := by
  have h := recordSale_atomic (fun _ => 0) (fun j => decide (j = 2))
    [⟨Field.fint 1, some 1, some 1, some 1, some 1⟩,
     ⟨Field.fint 2, some 1, some 1, some 1, some 1⟩,
     ⟨Field.fint 3, some 1, some 1, some 1, some 1⟩] "cash"
    ⟨[], [(Field.fint 1, 10), (Field.fint 2, 10), (Field.fint 3, 10)]⟩ (by decide)
  have h2 := h.2 ⟨2, by decide, by decide⟩
  exact ⟨by decide, ⟨by decide, by decide⟩, h2.1, h2.2⟩

theorem applyStockDec_eq_max :
    ∀ (st : List (Field × ℚ)) (pid : Field) (amt : ℚ),
      applyStockDec st pid amt
        = st.map (fun e => if e.1 = pid ∧ pid ≠ Field.fnone
            then (e.1, max 0 (e.2 - amt)) else e) := by
  intro st pid amt
  unfold applyStockDec
  apply List.map_congr_left
  intro e _
  by_cases hc : e.1 = pid ∧ pid ≠ Field.fnone
  · rw [if_pos hc, if_pos hc]
    congr 1
    rcases lt_or_ge (e.2 - amt) 0 with h | h
    · rw [if_pos h, max_eq_left h.le]
    · rw [if_neg (not_lt.mpr h), max_eq_right h]
  · rw [if_neg hc, if_neg hc]

theorem newStock_eq_foldl_max :
    ∀ (its : List SaleItem) (st : List (Field × ℚ)),
      newStock its st
        = its.foldl (fun st it => st.map (fun e =>
            if e.1 = it.pid ∧ it.pid ≠ Field.fnone
            then (e.1, max 0 (e.2 - qtyEff it * deductEff it)) else e)) st := by
  intro its
  induction its with
  | nil => intro st; rfl
  | cons it rest ih =>
      intro st
      simp only [newStock, List.foldl_cons, ih, applyStockDec_eq_max]

theorem newStock_nonneg :
    ∀ (its : List SaleItem) (st : List (Field × ℚ)),
      (∀ e ∈ st, 0 ≤ e.2) → ∀ e ∈ newStock its st, 0 ≤ e.2 := by
  intro its
  induction its with
  | nil => intro st h; exact h
  | cons it rest ih =>
      intro st h
      simp only [newStock]
      apply ih
      intro e he
      unfold applyStockDec at he
      obtain ⟨e0, he0, rfl⟩ := List.mem_map.mp he
      by_cases hc : e0.1 = it.pid ∧ it.pid ≠ Field.fnone
      · rw [if_pos hc]
        dsimp only
        split
        · exact le_refl 0
        · next hge => exact le_of_not_lt hge
      · rw [if_neg hc]
        exact h e0 he0

/-- Claim C4, counterexample.  An item with `deduct_unit = 0.0` and
quantity 2 against stock 5: the claim's formula `max(0, 5 − 2·0)` keeps the
stock at 5, but `float(item.get("deduct_unit") or 1.0)` treats the falsy
zero as 1, so the code decrements by 2 and leaves stock 3. -/
theorem recordSale_zero_deduct :
    (recordSale (fun _ => 0) noFails
        [⟨Field.fint 1, some 2, none, none, some 0⟩] "cash"
        ⟨[], [(Field.fint 1, 5)]⟩).2.stock = [(Field.fint 1, 3)]
    ∧ ¬((3 : ℚ) = max 0 (5 - 2 * 0)) := by
  have hne : ¬(Field.fint 1 = Field.fnone) := by decide
  constructor
  · norm_num [recordSale, recordLoop, noFails, applyStockDec, qtyEff, deductEff,
      newStock, hne]
  · norm_num

/-- Claim C4 (amended): in an error-free `record_sale` run, each item in
input order decrements every stock row matching its product reference by
`quantity × deductUnit` floored at zero — where a missing **or zero**
deduct-unit counts as 1, since `0.0` is falsy in the `or 1.0` default — and
stock values never become negative (given the data-model invariant that
they start non-negative). -/
theorem recordSale_stock_floor (idGen : ℕ → Int) (items : List SaleItem)
    (method : String) (db : DbState)
    (hnn : ∀ e ∈ db.stock, 0 ≤ e.2) :
    (recordSale idGen noFails items method db).2.stock
      = items.foldl
          (fun st it => st.map (fun e =>
            if e.1 = it.pid ∧ it.pid ≠ Field.fnone
            then (e.1, max 0 (e.2 - qtyEff it * deductEff it)) else e)) db.stock
    ∧ ∀ e ∈ (recordSale idGen noFails items method db).2.stock, 0 ≤ e.2 := by
  cases items with
  | nil => exact ⟨rfl, hnn⟩
  | cons it rest =>
      have hloop := recordLoop_ok (it :: rest) idGen noFails method 0 db
        (fun j _ _ => rfl)
      have hrs : recordSale idGen noFails (it :: rest) method db
          = (.ok true, ⟨db.sales ++ newSaleRows idGen method 0 (it :: rest),
              newStock (it :: rest) db.stock⟩) := by
        unfold recordSale
        rw [if_neg (by simp), hloop]
      rw [hrs]
      constructor
      · exact newStock_eq_foldl_max (it :: rest) db.stock
      · exact newStock_nonneg (it :: rest) db.stock hnn

/-- Claim C4, witness: one item with quantity 2 and deduct-unit 3 against a
stock of 7 — the amended theorem applied, with the decrement landing at
`max(0, 7 − 6) = 1`. -/
theorem recordSale_stock_floor_witness :
    (∀ e ∈ (⟨[], [(Field.fint 1, 7)]⟩ : DbState).stock, 0 ≤ e.2)
    ∧ (recordSale (fun _ => 0) noFails
          [⟨Field.fint 1, some 2, none, none, some 3⟩] "cash"
          ⟨[], [(Field.fint 1, 7)]⟩).2.stock
        = ([⟨Field.fint 1, some 2, none, none, some 3⟩] : List SaleItem).foldl
            (fun st it => st.map (fun e =>
              if e.1 = it.pid ∧ it.pid ≠ Field.fnone
              then (e.1, max 0 (e.2 - qtyEff it * deductEff it)) else e))
            (⟨[], [(Field.fint 1, 7)]⟩ : DbState).stock
    ∧ ∀ e ∈ (recordSale (fun _ => 0) noFails
          [⟨Field.fint 1, some 2, none, none, some 3⟩] "cash"
          ⟨[], [(Field.fint 1, 7)]⟩).2.stock, 0 ≤ e.2 := by
  have h := recordSale_stock_floor (fun _ => 0)
    [⟨Field.fint 1, some 2, none, none, some 3⟩] "cash"
    ⟨[], [(Field.fint 1, 7)]⟩ (by decide)
  exact ⟨by decide, h.1, h.2⟩

theorem collect_item_amount :
    ∀ (rows : List CartRow) (it : SaleItem), it ∈ collectCartItems rows →
      ∃ q p, it.qty = some q ∧ it.price = some p ∧ it.amount = some (q * p) := by
  intro rows
  induction rows with
  | nil => intro it h; cases h
  | cons r rest ih =>
      intro it h
      cases hd : r.descText with
      | none =>
          simp only [collectCartItems, hd] at h
          exact ih it h
      | some d =>
          simp only [collectCartItems, hd] at h
          by_cases hs : pyStrip d = ""
          · rw [if_pos hs] at h
            exact ih it h
          · rw [if_neg hs] at h
            rcases List.mem_cons.mp h with h1 | h1
            · subst h1
              exact ⟨_, _, rfl, rfl, rfl⟩
            · exact ih it h1

theorem newSaleRows_get :
    ∀ (its : List SaleItem) (idGen : ℕ → Int) (method : String) (i j : ℕ),
      (newSaleRows idGen method i its)[j]?
        = (its[j]?).map (fun it => saleRowOf idGen method (i + j) it) := by
  intro its idGen method
  induction its with
  | nil => intro i j; simp [newSaleRows]
  | cons it rest ih =>
      intro i j
      cases j with
      | zero => simp [newSaleRows]
      | succ j =>
          simp only [newSaleRows, List.getElem?_cons_succ, ih (i + 1) j]
          have harith : i + 1 + j = i + (j + 1) := by omega
          rw [harith]

/-- Claim C7: every sale line item collected from the cart carries an amount
recomputed as quantity × price from the cart cells (never read from an
amount input), and a successful `record_sale` over the collected items
persists exactly those amounts: the `j`-th appended sale row stores the
`j`-th collected item's `quantity × price`. -/
theorem collect_record_amount (rows : List CartRow) (idGen : ℕ → Int)
    (method : String) (db : DbState) :
    ((recordSale idGen noFails (collectCartItems rows) method db).2.sales
        = db.sales ++ newSaleRows idGen method 0 (collectCartItems rows))
    ∧ ∀ (j : ℕ) (sr : SaleRow) (it : SaleItem),
        (newSaleRows idGen method 0 (collectCartItems rows))[j]? = some sr →
        (collectCartItems rows)[j]? = some it →
        it.amount = some (it.qty.getD 0 * it.price.getD 0)
          ∧ sr.amount = it.qty.getD 0 * it.price.getD 0 := by
  constructor
  · cases hits : collectCartItems rows with
    | nil => simp [recordSale, newSaleRows]
    | cons it rest =>
        have hloop := recordLoop_ok (it :: rest) idGen noFails method 0 db
          (fun j _ _ => rfl)
        unfold recordSale
        rw [if_neg (by simp), hloop]
  · intro j sr it hsr hit
    have hget := newSaleRows_get (collectCartItems rows) idGen method 0 j
    rw [hsr, hit] at hget
    have hsr_eq : sr = saleRowOf idGen method (0 + j) it := by
      simpa using hget
    obtain ⟨q, p, hq, hp, ha⟩ :=
      collect_item_amount rows it (List.getElem?_mem hit)
    constructor
    · rw [ha, hq, hp]
      simp
    · rw [hsr_eq]
      show it.amount.getD 0 = it.qty.getD 0 * it.price.getD 0
      rw [ha, hq, hp]
      simp

/-- Claim C7, witness: the theorem applied to a concrete one-row cart
(description `"eggs"`, quantity cell `"2"`, price cell `"3"`) and an empty
database. -/
theorem collect_record_amount_witness :
    ((recordSale (fun _ => 0) noFails
        (collectCartItems [⟨some "eggs", some "2", some "3", [("id", Field.fint 7)]⟩])
        "cash" ⟨[], []⟩).2.sales
      = (⟨[], []⟩ : DbState).sales ++ newSaleRows (fun _ => 0) "cash" 0
          (collectCartItems [⟨some "eggs", some "2", some "3", [("id", Field.fint 7)]⟩]))
    ∧ ∀ (j : ℕ) (sr : SaleRow) (it : SaleItem),
        (newSaleRows (fun _ => 0) "cash" 0
          (collectCartItems
            [⟨some "eggs", some "2", some "3", [("id", Field.fint 7)]⟩]))[j]?
          = some sr →
        (collectCartItems
          [⟨some "eggs", some "2", some "3", [("id", Field.fint 7)]⟩])[j]?
          = some it →
        it.amount = some (it.qty.getD 0 * it.price.getD 0)
          ∧ sr.amount = it.qty.getD 0 * it.price.getD 0 :=
  collect_record_amount [⟨some "eggs", some "2", some "3", [("id", Field.fint 7)]⟩]
    (fun _ => 0) "cash" ⟨[], []⟩

/-- Claim C5, counterexample.  A cache entry whose barcode field is the
empty string matches the queried barcode `""` under the code's own
comparison (`str(entry.get("barcode")) == str(barcode)`), yet the fetch
queries the source of truth anyway: `_find_in_cache_by_barcode` rejects a
falsy barcode before scanning the cache. -/
theorem fetch_matching_entry_queried :
    barcodeKey [("barcode", Field.fstr ""), ("name", Field.fstr "eggs")] = ""
    ∧ (fetchProductByBarcode [[("barcode", Field.fstr ""), ("name", Field.fstr "eggs")]]
        (fun _ => none) "").dbQueried = true := by
  refine ⟨by decide, by decide⟩

/-- Claim C5 (amended): whenever the cache scan succeeds — the barcode is a
non-empty string and the first cache entry whose barcode string equals it is
a non-empty (truthy) record — `fetch_product_by_barcode` returns that entry,
performs no source-of-truth query, and leaves the cache unchanged. -/
theorem fetch_cache_hit_frame (cache : List PyDict) (db : String → Option PyDict)
    (barcode : String) (e : PyDict)
    (he : findInCacheByBarcode cache barcode = some e) (hne : e ≠ []) :
    fetchProductByBarcode cache db barcode = ⟨some e, false, cache⟩ := by
  have hEmp : e.isEmpty = false := by
    cases e with
    | nil => exact absurd rfl hne
    | cons _ _ => rfl
  simp [fetchProductByBarcode, he, hEmp]

/-- Claim C5, witness: a one-entry cache hit on barcode `"123"` returning
the entry with no source query and an unchanged cache. -/
theorem fetch_cache_hit_frame_witness :
    (findInCacheByBarcode [[("barcode", Field.fstr "123"), ("name", Field.fstr "eggs")]]
        "123" = some [("barcode", Field.fstr "123"), ("name", Field.fstr "eggs")])
    ∧ ([("barcode", Field.fstr "123"), ("name", Field.fstr "eggs")] : PyDict) ≠ []
    ∧ fetchProductByBarcode [[("barcode", Field.fstr "123"), ("name", Field.fstr "eggs")]]
        (fun _ => none) "123"
      = ⟨some [("barcode", Field.fstr "123"), ("name", Field.fstr "eggs")], false,
          [[("barcode", Field.fstr "123"), ("name", Field.fstr "eggs")]]⟩ := by
  refine ⟨by decide, by decide, fetch_cache_hit_frame _ _ _ _ (by decide) (by decide)⟩

theorem filter_aid_length_le_one :
    ∀ (tbl : List AttRow) (aid : Int),
      (tbl.map AttRow.aid).Nodup →
      (tbl.filter (fun r => decide (r.aid = aid))).length ≤ 1 := by
  intro tbl
  induction tbl with
  | nil => intro aid _; simp
  | cons r rest ih =>
      intro aid h
      have h' : (∀ x ∈ rest, ¬x.aid = r.aid) ∧ (List.map AttRow.aid rest).Nodup := by
        simpa using h
      rw [List.filter_cons]
      by_cases hr : r.aid = aid
      · rw [if_pos (by simpa using hr)]
        have hrest : rest.filter (fun x => decide (x.aid = aid)) = [] := by
          rw [List.filter_eq_nil_iff]
          intro x hx
          simp only [decide_eq_true_eq]
          intro hc
          exact h'.1 x hx (hc.trans hr.symm)
        rw [hrest]
        simp
      · rw [if_neg (by simpa using hr)]
        exact ih aid h'.2

/-- Claim C8: on a table whose attendance identifiers are unique (the
primary key), `clock_out` sets time-out to the current time on the matching
row, commits, and returns `True` exactly when one row was affected. -/
theorem clockOut_exact_one (now : String) (aid : Int) (tbl : List AttRow)
    (h : (tbl.map AttRow.aid).Nodup) :
    (clockOut false now aid tbl).2
        = tbl.map (fun r => if r.aid = aid then { r with timeOut := some now } else r)
    ∧ ((clockOut false now aid tbl).1 = .ok true
        ↔ (tbl.filter (fun r => decide (r.aid = aid))).length = 1) := by
  have hle := filter_aid_length_le_one tbl aid h
  constructor
  · rfl
  · constructor
    · intro hh
      have hgt : 0 < (tbl.filter (fun r => decide (r.aid = aid))).length := by
        by_contra hc
        have hz : (tbl.filter (fun r => decide (r.aid = aid))).length = 0 := by omega
        simp [clockOut, hz] at hh
      omega
    · intro hh
      have hgt : (tbl.filter (fun r => decide (r.aid = aid))).length > 0 := by omega
      simp [clockOut, hgt]

/-- Claim C8, witness: a two-row table with distinct identifiers; closing
row 3 updates exactly that row and returns `True`. -/
theorem clockOut_exact_one_witness :
    ((([⟨3, 1, some "09:00", none, "2026-10-12"⟩,
        ⟨4, 2, none, none, "2026-10-12"⟩] : List AttRow).map AttRow.aid).Nodup)
    ∧ (clockOut false "17:00" 3
          [⟨3, 1, some "09:00", none, "2026-10-12"⟩,
           ⟨4, 2, none, none, "2026-10-12"⟩]).2
        = ([⟨3, 1, some "09:00", none, "2026-10-12"⟩,
            ⟨4, 2, none, none, "2026-10-12"⟩] : List AttRow).map
            (fun r => if r.aid = 3 then { r with timeOut := some "17:00" } else r)
    ∧ ((clockOut false "17:00" 3
          [⟨3, 1, some "09:00", none, "2026-10-12"⟩,
           ⟨4, 2, none, none, "2026-10-12"⟩]).1 = .ok true
        ↔ (([⟨3, 1, some "09:00", none, "2026-10-12"⟩,
             ⟨4, 2, none, none, "2026-10-12"⟩] : List AttRow).filter
            (fun r => decide (r.aid = 3))).length = 1) := by
  have h := clockOut_exact_one "17:00" 3
    [⟨3, 1, some "09:00", none, "2026-10-12"⟩,
     ⟨4, 2, none, none, "2026-10-12"⟩] (by decide)
  exact ⟨by decide, h.1, h.2⟩

end POS
